import Mathlib

/-!
Verification of the openclaw-feishu-media-fixer patch engine.

A shallow embedding of the core of the repository:

* `src/core/detector.ts`  — marker-based content classification,
* `src/core/patcher.ts`   — anchor-based patch application with self-verification,
* `src/core/backup.ts`    — timestamped copy/restore of a single file.

Document text is modelled as `List Char` (the value of a JS string).  The
JavaScript regular expressions used by the code are alternation-free sequences
of literal chunks, single-character classes and greedy `*`/`+` over character
classes; they are embedded as `List Piece` together with an executable
backtracking matcher (`matchPieces` / `searchPieces`) that reproduces the
leftmost-then-greedy semantics of the JS engine, and a relational semantics
`PM` with soundness and completeness proofs.  The single optional group
`(?: ... )?` occurring in one pattern is encoded as an ordered two-pattern
alternation (group-present tried first), which has the same matching language
and the same leftmost behaviour.

The filesystem is modelled explicitly: the patch target is a `FileAccess`
(absent / unreadable / readable with content), and the backup store operates
on a total map from path names to optional contents.
-/

set_option maxHeartbeats 1000000

/-- Document text: the character sequence of a JS string. -/
abbrev Text := List Char

/-- The apostrophe character (U+0027). -/
def aposChar : Char := Char.ofNat 39

/-- JS `\s`: the whitespace class of JavaScript regular expressions. -/
def jsWs (c : Char) : Bool :=
  c == ' ' || c == '\t' || c == '\n' || c == '\r' || c == '\x0b' || c == '\x0c' ||
  c == '\u00a0' || c == '\u1680' || ('\u2000' <= c && c <= '\u200a') ||
  c == '\u2028' || c == '\u2029' || c == '\u202f' || c == '\u205f' ||
  c == '\u3000' || c == '\ufeff'

/-- One piece of an alternation-free JS regular expression:
a literal chunk, a single-character class, or a greedy star/plus
over a character class. -/
inductive Piece where
  | str : List Char → Piece
  | one : (Char → Bool) → Piece
  | star : (Char → Bool) → Piece
  | plus : (Char → Bool) → Piece

/-- Try `f` at `k, k-1, …, 0` and return the first success (greedy order). -/
def tryFrom (f : Nat → Option Nat) : Nat → Option Nat
  | 0 => f 0
  | k+1 => match f (k+1) with
    | some n => some n
    | none => tryFrom f k

/-- Try `f` at `k, k-1, …, 1` and return the first success (greedy order,
at least one iteration). -/
def tryFrom1 (f : Nat → Option Nat) : Nat → Option Nat
  | 0 => none
  | k+1 => match f (k+1) with
    | some n => some n
    | none => tryFrom1 f k

/-- Backtracking matcher: the length of the highest-priority
(greedy-first) match of the pattern at the start of `s`, if any. -/
def matchPieces : List Piece → Text → Option Nat
  | [], _ => some 0
  | .str l :: ps, s =>
    if l.isPrefixOf s then (matchPieces ps (s.drop l.length)).map (l.length + ·) else none
  | .one _ :: _, [] => none
  | .one p :: ps, c :: s' => if p c then (matchPieces ps s').map (· + 1) else none
  | .star p :: ps, s =>
    tryFrom (fun k => (matchPieces ps (s.drop k)).map (k + ·)) (s.takeWhile p).length
  | .plus p :: ps, s =>
    tryFrom1 (fun k => (matchPieces ps (s.drop k)).map (k + ·)) (s.takeWhile p).length

/-- Leftmost match position and length, as JS `RegExp.exec`:
scan start positions left to right. -/
def searchPieces (pat : List Piece) : Text → Option (Nat × Nat)
  | [] =>
    match matchPieces pat [] with
    | some n => some (0, n)
    | none => none
  | c :: s' =>
    match matchPieces pat (c :: s') with
    | some n => some (0, n)
    | none => (searchPieces pat s').map (fun r => (r.1 + 1, r.2))

/-- JS `regex.test(text)` for an alternation-free pattern. -/
def testPieces (pat : List Piece) (s : Text) : Bool :=
  (searchPieces pat s).isSome

/-- JS `text.replace(regex, f)` for a non-global regex: replace the leftmost
match (the matched span is passed to `f`). -/
def replacePieces (pat : List Piece) (f : Text → Text) (s : Text) : Text :=
  match searchPieces pat s with
  | none => s
  | some (i, n) => s.take i ++ f ((s.drop i).take n) ++ s.drop (i + n)

/-- JS `text.includes(needle)`. -/
def includes (s needle : Text) : Bool := decide (needle <:+: s)

/-- JS `text.indexOf(needle, from)` with JS clamping of a negative
`from` to `0`; `-1` when absent. -/
def jsIndexOfFrom (s needle : Text) (frm : Int) : Int :=
  let c := frm.toNat
  match searchPieces [.str needle] (s.drop c) with
  | some (j, _) => (c : Int) + (j : Int)
  | none => -1

/-- JS `text.lastIndexOf(needle)`: `-1` when absent. -/
def jsLastIndexOf (s needle : Text) : Int :=
  match ((List.range (s.length + 1)).filter (fun i => needle.isPrefixOf (s.drop i))).getLast? with
  | some i => (i : Int)
  | none => -1

/-! ## The marker and anchor patterns of the source -/

/-- A single or double quote, the JS class `['"]`. -/
def quoteClass (c : Char) : Bool := c == aposChar || c == '"'

/-- `detector.ts` `MEDIA_IMPORT_PATTERN`:
`/import\s*\{[^}]*sendMediaFeishu[^}]*\}\s*from\s*['"]\.\/media\.js['"]/`. -/
def MEDIA_IMPORT_PATTERN : List Piece :=
  [.str "import".data, .star jsWs, .str ("\x7b").data, .star (fun c => !(c == '\x7d')),
   .str "sendMediaFeishu".data, .star (fun c => !(c == '\x7d')), .str "\x7d".data,
   .star jsWs, .str "from".data, .star jsWs, .one quoteClass,
   .str "./media.js".data, .one quoteClass]

/-- `detector.ts` `MEDIA_LOGIC_PATTERN`: `/payload\.mediaUrls\?\.length/`
(a literal). -/
def MEDIA_LOGIC_PATTERN : List Piece := [.str "payload.mediaUrls?.length".data]

/-- `detector.ts` `SEND_MEDIA_CALL_PATTERN`: `/await\s+sendMediaFeishu\s*\(/`. -/
def SEND_MEDIA_CALL_PATTERN : List Piece :=
  [.str "await".data, .plus jsWs, .str "sendMediaFeishu".data, .star jsWs, .str "(".data]

/-- `patcher.ts` `importAnchor`:
`/import\s*\{[^}]*sendMarkdownCardFeishu[^}]*\}\s*from\s*['"]\.\/send\.js['"]/`. -/
def importAnchor : List Piece :=
  [.str "import".data, .star jsWs, .str "\x7b".data, .star (fun c => !(c == '\x7d')),
   .str "sendMarkdownCardFeishu".data, .star (fun c => !(c == '\x7d')), .str "\x7d".data,
   .star jsWs, .str "from".data, .star jsWs, .one quoteClass,
   .str "./send.js".data, .one quoteClass]

/-- `patcher.ts` `deliverAnchor`:
`/deliver:\s*async\s*\(\s*payload\s*:\s*ReplyPayload/`. -/
def deliverAnchor : List Piece :=
  [.str "deliver:".data, .star jsWs, .str "async".data, .star jsWs, .str "(".data,
   .star jsWs, .str "payload".data, .star jsWs, .str ":".data, .star jsWs,
   .str "ReplyPayload".data]

/-- `patcher.ts` `fullPattern` with the optional return-type group present:
`/deliver:\s*async\s*\([^)]*\)\s*:\s*[^=]+\s*=>\s*\{/`. -/
def fullPatternA : List Piece :=
  [.str "deliver:".data, .star jsWs, .str "async".data, .star jsWs, .str "(".data,
   .star (fun c => !(c == ')')), .str ")".data, .star jsWs,
   .str ":".data, .star jsWs, .plus (fun c => !(c == '=')), .star jsWs,
   .str "=>".data, .star jsWs, .str "\x7b".data]

/-- `patcher.ts` `fullPattern` with the optional return-type group absent:
`/deliver:\s*async\s*\([^)]*\)\s*=>\s*\{/`. -/
def fullPatternB : List Piece :=
  [.str "deliver:".data, .star jsWs, .str "async".data, .star jsWs, .str "(".data,
   .star (fun c => !(c == ')')), .str ")".data, .star jsWs,
   .str "=>".data, .star jsWs, .str "\x7b".data]

/-- Leftmost match of the ordered alternation `fullPatternA | fullPatternB`
(group-present tried first at each position, as the JS backtracker does). -/
def searchFull : Text → Option (Nat × Nat)
  | [] =>
    match matchPieces fullPatternA [] with
    | some n => some (0, n)
    | none =>
      match matchPieces fullPatternB [] with
      | some n => some (0, n)
      | none => none
  | c :: s' =>
    match matchPieces fullPatternA (c :: s') with
    | some n => some (0, n)
    | none =>
      match matchPieces fullPatternB (c :: s') with
      | some n => some (0, n)
      | none => (searchFull s').map (fun r => (r.1 + 1, r.2))

/-- JS `fullPattern.test(content)`. -/
def testFull (s : Text) : Bool := (searchFull s).isSome


/-! ## Relational matching semantics -/

/-- `PM ps m`: the pattern `ps` matches exactly the text `m`. -/
inductive PM : List Piece → Text → Prop where
  | nil : PM [] []
  | str {l : List Char} {ps : List Piece} {m : Text} :
      PM ps m → PM (.str l :: ps) (l ++ m)
  | one {p : Char → Bool} {ps : List Piece} {c : Char} {m : Text} :
      p c = true → PM ps m → PM (.one p :: ps) (c :: m)
  | star {p : Char → Bool} {ps : List Piece} {w m : Text} :
      (∀ c ∈ w, p c = true) → PM ps m → PM (.star p :: ps) (w ++ m)
  | plus {p : Char → Bool} {ps : List Piece} {w m : Text} :
      w ≠ [] → (∀ c ∈ w, p c = true) → PM ps m → PM (.plus p :: ps) (w ++ m)

/-- The pattern `ps` matches some contiguous span of `s`. -/
def Occurs (pat : List Piece) (s : Text) : Prop :=
  ∃ a m b, s = a ++ m ++ b ∧ PM pat m

theorem tryFrom_eq_some {f : Nat → Option Nat} {k n : Nat}
    (h : tryFrom f k = some n) : ∃ j, j ≤ k ∧ f j = some n := by
  induction k with
  | zero => exact ⟨0, Nat.le_refl 0, h⟩
  | succ k ih =>
    rw [tryFrom] at h
    split at h
    · exact ⟨k + 1, Nat.le_refl _, by rw [‹f (k+1) = some _›, h]⟩
    · obtain ⟨j, hj, hfj⟩ := ih h
      exact ⟨j, Nat.le_succ_of_le hj, hfj⟩

theorem tryFrom1_eq_some {f : Nat → Option Nat} {k n : Nat}
    (h : tryFrom1 f k = some n) : ∃ j, 1 ≤ j ∧ j ≤ k ∧ f j = some n := by
  induction k with
  | zero => exact absurd h (by simp [tryFrom1])
  | succ k ih =>
    rw [tryFrom1] at h
    split at h
    · exact ⟨k + 1, Nat.succ_le_succ (Nat.zero_le k), Nat.le_refl _,
        by rw [‹f (k+1) = some _›, h]⟩
    · obtain ⟨j, hj1, hjk, hfj⟩ := ih h
      exact ⟨j, hj1, Nat.le_succ_of_le hjk, hfj⟩

theorem tryFrom_isSome {f : Nat → Option Nat} {k j : Nat}
    (hj : j ≤ k) (h : (f j).isSome) : (tryFrom f k).isSome := by
  induction k with
  | zero => simpa [tryFrom, Nat.le_zero.mp hj] using h
  | succ k ih =>
    rw [tryFrom]
    split
    · simp
    · rcases Nat.lt_or_ge j (k + 1) with hlt | hge
      · exact ih (Nat.lt_succ_iff.mp hlt)
      · have : j = k + 1 := Nat.le_antisymm hj hge
        subst this
        simp_all

theorem tryFrom1_isSome {f : Nat → Option Nat} {k j : Nat}
    (hj1 : 1 ≤ j) (hj : j ≤ k) (h : (f j).isSome) : (tryFrom1 f k).isSome := by
  induction k with
  | zero => omega
  | succ k ih =>
    rw [tryFrom1]
    split
    · simp
    · rcases Nat.lt_or_ge j (k + 1) with hlt | hge
      · exact ih (Nat.lt_succ_iff.mp hlt)
      · have : j = k + 1 := Nat.le_antisymm hj hge
        subst this
        simp_all

/-- Characters within the `takeWhile` span satisfy the predicate. -/
theorem all_of_take_le_takeWhile {p : Char → Bool} {s : Text} {j : Nat}
    (hj : j ≤ (s.takeWhile p).length) : ∀ c ∈ s.take j, p c = true := by
  intro c hc
  have hs : s.takeWhile p ++ s.dropWhile p = s := List.takeWhile_append_dropWhile p s
  have : s.take j = (s.takeWhile p).take j := by
    conv_lhs => rw [← hs]
    exact List.take_append_of_le_length hj
  rw [this] at hc
  exact List.mem_takeWhile_imp (List.take_subset _ _ hc)

/-- A prefix of `s` whose characters all satisfy `p` is no longer than
the `takeWhile` span. -/
theorem length_le_takeWhile_of_all {p : Char → Bool} {w s : Text}
    (hall : ∀ c ∈ w, p c = true) (hpre : w <+: s) :
    w.length ≤ (s.takeWhile p).length := by
  induction w generalizing s with
  | nil => simp
  | cons c w ih =>
    obtain ⟨t, ht⟩ := hpre
    subst ht
    have hc : p c = true := hall c (by simp)
    simp only [List.cons_append, List.takeWhile_cons, hc, if_true, List.length_cons]
    exact Nat.succ_le_succ (ih (fun x hx => hall x (by simp [hx])) ⟨t, rfl⟩)

/-- Soundness: a successful match consumes a span satisfying `PM`. -/
theorem matchPieces_sound {pat : List Piece} {s : Text} {n : Nat}
    (h : matchPieces pat s = some n) : n ≤ s.length ∧ PM pat (s.take n) := by
  induction pat generalizing s n with
  | nil =>
    simp only [matchPieces, Option.some.injEq] at h
    subst h
    exact ⟨Nat.zero_le _, PM.nil⟩
  | cons piece ps ih =>
    cases piece with
    | str l =>
      rw [matchPieces] at h
      split at h
      · obtain ⟨n', hn', rfl⟩ := Option.map_eq_some'.mp h
        obtain ⟨hlen, hpm⟩ := ih hn'
        have hpre : l <+: s := List.isPrefixOf_iff_prefix.mp ‹_›
        obtain ⟨t, ht⟩ := hpre
        subst ht
        constructor
        · simpa [List.length_append] using Nat.add_le_add_left (by simpa using hlen) l.length
        · rw [List.take_append]
          exact PM.str (by simpa using hpm)
      · exact absurd h (by simp)
    | one p =>
      match s with
      | [] => exact absurd h (by rw [matchPieces] at h; exact Option.noConfusion h)
      | c :: s' =>
        rw [matchPieces] at h
        split at h
        · obtain ⟨n', hn', rfl⟩ := Option.map_eq_some'.mp h
          obtain ⟨hlen, hpm⟩ := ih hn'
          exact ⟨by simpa using Nat.succ_le_succ hlen, by
            simpa [List.take_succ_cons] using PM.one ‹p c = true› hpm⟩
        · exact absurd h (by simp)
    | star p =>
      rw [matchPieces] at h
      obtain ⟨j, hj, hfj⟩ := tryFrom_eq_some h
      obtain ⟨n', hn', rfl⟩ := Option.map_eq_some'.mp hfj
      obtain ⟨hlen, hpm⟩ := ih hn'
      have hjs : j ≤ s.length := le_trans hj (List.takeWhile_prefix p).length_le
      have hdl : (s.drop j).length = s.length - j := List.length_drop j s
      constructor
      · rw [hdl] at hlen; omega
      · rw [List.take_add]
        exact PM.star (all_of_take_le_takeWhile hj) hpm
    | plus p =>
      rw [matchPieces] at h
      obtain ⟨j, hj1, hj, hfj⟩ := tryFrom1_eq_some h
      obtain ⟨n', hn', rfl⟩ := Option.map_eq_some'.mp hfj
      obtain ⟨hlen, hpm⟩ := ih hn'
      have hjs : j ≤ s.length := le_trans hj (List.takeWhile_prefix p).length_le
      have hdl : (s.drop j).length = s.length - j := List.length_drop j s
      constructor
      · rw [hdl] at hlen; omega
      · rw [List.take_add]
        refine PM.plus ?_ (all_of_take_le_takeWhile hj) hpm
        have hlt : (s.take j).length = j := List.length_take_of_le hjs
        intro hnil
        rw [hnil] at hlt
        simp at hlt
        omega

/-- Completeness: a `PM`-span that is a prefix of `s` makes the matcher succeed. -/
theorem matchPieces_complete {pat : List Piece} {m : Text} (h : PM pat m) :
    ∀ {s : Text}, m <+: s → (matchPieces pat s).isSome := by
  induction h with
  | nil => intro s _; rw [matchPieces]; simp
  | @str l ps m' hps ih =>
    intro s hpre
    obtain ⟨t, ht⟩ := hpre
    subst ht
    rw [matchPieces]
    have hp : l.isPrefixOf (l ++ m' ++ t) :=
      List.isPrefixOf_iff_prefix.mpr ⟨m' ++ t, by simp⟩
    rw [if_pos hp]
    have hdrop : (l ++ m' ++ t).drop l.length = m' ++ t := by
      rw [List.append_assoc, List.drop_left]
    rw [hdrop]
    simpa using ih ⟨t, rfl⟩
  | @one p ps c m' hc hps ih =>
    intro s hpre
    obtain ⟨t, ht⟩ := hpre
    subst ht
    simp only [List.cons_append]
    rw [matchPieces, if_pos hc]
    simpa using ih ⟨t, rfl⟩
  | @star p ps w m' hw hps ih =>
    intro s hpre
    rw [matchPieces]
    have hwpre : w <+: s := (List.prefix_append w m').trans (by simpa [List.append_assoc] using hpre)
    have hle : w.length ≤ (s.takeWhile p).length := length_le_takeWhile_of_all hw hwpre
    apply tryFrom_isSome hle
    have hm : m' <+: s.drop w.length := by
      obtain ⟨t, ht⟩ := hpre
      subst ht
      rw [List.append_assoc, List.drop_left]
      exact ⟨t, rfl⟩
    simpa using ih hm
  | @plus p ps w m' hnil hw hps ih =>
    intro s hpre
    rw [matchPieces]
    have hwpre : w <+: s := (List.prefix_append w m').trans (by simpa [List.append_assoc] using hpre)
    have hle : w.length ≤ (s.takeWhile p).length := length_le_takeWhile_of_all hw hwpre
    have h1 : 1 ≤ w.length := List.length_pos.mpr hnil
    apply tryFrom1_isSome h1 hle
    have hm : m' <+: s.drop w.length := by
      obtain ⟨t, ht⟩ := hpre
      subst ht
      rw [List.append_assoc, List.drop_left]
      exact ⟨t, rfl⟩
    simpa using ih hm

/-- A successful search yields a successful match at the reported position. -/
theorem searchPieces_sound {pat : List Piece} {s : Text} {i n : Nat}
    (h : searchPieces pat s = some (i, n)) :
    i ≤ s.length ∧ matchPieces pat (s.drop i) = some n := by
  induction s generalizing i n with
  | nil =>
    rw [searchPieces] at h
    split at h
    · rcases h with ⟨rfl, rfl⟩
      exact ⟨Nat.le_refl _, by simpa using ‹matchPieces pat [] = some _›⟩
    · exact absurd h (by simp)
  | cons c s' ih =>
    rw [searchPieces] at h
    split at h
    · rcases h with ⟨rfl, rfl⟩
      exact ⟨Nat.zero_le _, by simpa using ‹matchPieces pat (c :: s') = some _›⟩
    · obtain ⟨⟨i', n'⟩, hrec, heq⟩ := Option.map_eq_some'.mp h
      simp only [Prod.mk.injEq] at heq
      obtain ⟨rfl, rfl⟩ := heq
      obtain ⟨hle, hm⟩ := ih hrec
      exact ⟨Nat.succ_le_succ hle, by simpa using hm⟩

/-- If the pattern matches at some position, the search succeeds. -/
theorem searchPieces_isSome_of {pat : List Piece} {s : Text} (i : Nat)
    (h : (matchPieces pat (s.drop i)).isSome) : (searchPieces pat s).isSome := by
  induction s generalizing i with
  | nil =>
    rw [searchPieces]
    simp only [List.drop_nil] at h
    obtain ⟨n, hn⟩ := Option.isSome_iff_exists.mp h
    rw [hn]
    simp
  | cons c s' ih =>
    rw [searchPieces]
    split
    · simp
    · cases i with
      | zero =>
        simp only [List.drop_zero] at h
        simp_all
      | succ i' =>
        simp only [List.drop_succ_cons] at h
        simpa using ih i' h

/-- `regex.test` is equivalent to the existence of a `PM` span. -/
theorem testPieces_iff {pat : List Piece} {s : Text} :
    testPieces pat s = true ↔ Occurs pat s := by
  constructor
  · intro h
    rw [testPieces] at h
    obtain ⟨⟨i, n⟩, hin⟩ := Option.isSome_iff_exists.mp h
    obtain ⟨hle, hm⟩ := searchPieces_sound hin
    obtain ⟨_, hpm⟩ := matchPieces_sound hm
    refine ⟨s.take i, (s.drop i).take n, (s.drop i).drop n, ?_, hpm⟩
    conv_lhs => rw [← List.take_append_drop i s, ← List.take_append_drop n (s.drop i)]
    rw [List.append_assoc]
  · rintro ⟨a, m, b, rfl, hpm⟩
    rw [testPieces]
    apply searchPieces_isSome_of a.length
    have hdrop : (a ++ m ++ b).drop a.length = m ++ b := by
      rw [List.append_assoc, List.drop_left]
    rw [hdrop]
    exact matchPieces_complete hpm ⟨b, rfl⟩

/-- `regex.test` is false iff no `PM` span exists. -/
theorem testPieces_eq_false_iff {pat : List Piece} {s : Text} :
    testPieces pat s = false ↔ ¬ Occurs pat s := by
  rw [← testPieces_iff, Bool.eq_false_iff, ne_eq]

/-! ## Window combinatorics: spans across an insertion -/

theorem eq_take_drop_of_append3 {s a m b : Text} (h : s = a ++ m ++ b) :
    m = (s.drop a.length).take m.length := by
  subst h
  rw [List.append_assoc, List.drop_left, List.take_left]

theorem drop_take_infix (l : Text) (j q : Nat) : (l.drop j).take q <:+: l :=
  ⟨l.take j, (l.drop j).drop q, by
    rw [List.append_assoc, List.take_append_drop, List.take_append_drop]⟩

/-- A span `m` of `A ++ I ++ C` lies in the untouched part (so it is a span of
`A ++ C`), lies inside `I`, contains `I`, or straddles one boundary of `I`
(its tail being a prefix of `I`, or its head a suffix of `I`). -/
theorem window_cases {A I C a m b : Text} (h : A ++ I ++ C = a ++ m ++ b) :
    (∃ a' b', A ++ C = a' ++ m ++ b') ∨
    m <:+: I ∨ I <:+: m ∨
    (∃ k, 0 < k ∧ k ≤ I.length ∧ k < m.length ∧
      m.drop (m.length - k) = I.take k) ∨
    (∃ k, 0 < k ∧ k ≤ I.length ∧ k < m.length ∧
      m.take k = I.drop (I.length - k)) := by
  have hsplit : (A ++ I ++ C).drop a.length = m ++ b := by
    rw [h, List.append_assoc, List.drop_left]
  have hlen : a.length ≤ A.length + I.length + C.length := by
    have := congrArg List.length h
    simp only [List.length_append] at this
    omega
  by_cases hc1 : a.length + m.length ≤ A.length
  · -- the span lies inside A
    left
    have hiA : a.length ≤ A.length := le_trans (Nat.le_add_right _ _) hc1
    have hAm : m ++ b = A.drop a.length ++ (I ++ C) := by
      rw [← hsplit, List.append_assoc, List.drop_append_of_le_length hiA]
    have hmn : m = (A.drop a.length).take m.length := by
      have := congrArg (List.take m.length) hAm
      rw [List.take_left, List.take_append_of_le_length
        (by rw [List.length_drop]; omega)] at this
      exact this
    refine ⟨A.take a.length, (A.drop a.length).drop m.length ++ C, ?_⟩
    calc A ++ C = (A.take a.length ++ A.drop a.length) ++ C := by
          rw [List.take_append_drop]
      _ = (A.take a.length ++ ((A.drop a.length).take m.length ++
            (A.drop a.length).drop m.length)) ++ C := by
          rw [List.take_append_drop m.length (A.drop a.length)]
      _ = A.take a.length ++ m ++ ((A.drop a.length).drop m.length ++ C) := by
          rw [← hmn]; simp [List.append_assoc]
  · by_cases hc2 : A.length + I.length ≤ a.length
    · -- the span lies inside C
      left
      have hdrop : (A ++ I ++ C).drop a.length =
          C.drop (a.length - (A.length + I.length)) := by
        conv_lhs => rw [show a.length =
          (A ++ I).length + (a.length - (A.length + I.length)) from by
            simp only [List.length_append]; omega]
        rw [List.drop_append]
      have hCm : m ++ b = C.drop (a.length - (A.length + I.length)) := by
        rw [← hsplit, hdrop]
      have hmn : m = (C.drop (a.length - (A.length + I.length))).take m.length := by
        have := congrArg (List.take m.length) hCm
        rw [List.take_left] at this
        exact this
      refine ⟨A ++ C.take (a.length - (A.length + I.length)),
        (C.drop (a.length - (A.length + I.length))).drop m.length, ?_⟩
      calc A ++ C = A ++ (C.take (a.length - (A.length + I.length)) ++
            C.drop (a.length - (A.length + I.length))) := by rw [List.take_append_drop]
        _ = A ++ (C.take (a.length - (A.length + I.length)) ++
            ((C.drop (a.length - (A.length + I.length))).take m.length ++
             (C.drop (a.length - (A.length + I.length))).drop m.length)) := by
            rw [List.take_append_drop m.length
              (C.drop (a.length - (A.length + I.length)))]
        _ = (A ++ C.take (a.length - (A.length + I.length))) ++ m ++
            (C.drop (a.length - (A.length + I.length))).drop m.length := by
            rw [← hmn]; simp [List.append_assoc]
    · push_neg at hc1 hc2
      by_cases hc3 : A.length ≤ a.length
      · have hIC : m ++ b = I.drop (a.length - A.length) ++ C := by
          rw [← hsplit]
          conv_lhs => rw [List.append_assoc, show a.length =
            A.length + (a.length - A.length) from by omega, List.drop_append]
          exact List.drop_append_of_le_length (by omega)
        by_cases hc4 : a.length + m.length ≤ A.length + I.length
        · -- the span lies inside I
          right; left
          have hmn : m = (I.drop (a.length - A.length)).take m.length := by
            have := congrArg (List.take m.length) hIC
            rw [List.take_left, List.take_append_of_le_length
              (by rw [List.length_drop]; omega)] at this
            exact this
          rw [hmn]
          exact drop_take_infix I _ _
        · -- right straddle: the head of m is a suffix of I
          push_neg at hc4
          right; right; right; right
          refine ⟨A.length + I.length - a.length, by omega, by omega, by omega, ?_⟩
          have h4 := congrArg (List.take (A.length + I.length - a.length)) hIC
          rw [List.take_append_of_le_length (by omega),
            List.take_left' (by rw [List.length_drop]; omega)] at h4
          rw [h4]
          congr 1
          omega
      · push_neg at hc3
        have hstep : m.drop (A.length - a.length) ++ b = I ++ C := by
          have h3 : ((A ++ I ++ C).drop a.length).drop (A.length - a.length) =
              I ++ C := by
            rw [List.drop_drop,
              show a.length + (A.length - a.length) = A.length from by omega,
              List.append_assoc, List.drop_left]
          rw [hsplit, List.drop_append_of_le_length (by omega)] at h3
          exact h3
        by_cases hc4 : a.length + m.length ≤ A.length + I.length
        · -- left straddle: the tail of m is a prefix of I
          right; right; right; left
          refine ⟨a.length + m.length - A.length, by omega, by omega, by omega, ?_⟩
          have h4 := congrArg (List.take (a.length + m.length - A.length)) hstep
          rw [List.take_left' (by rw [List.length_drop]; omega),
            List.take_append_of_le_length (by omega)] at h4
          rw [show m.length - (a.length + m.length - A.length) =
            A.length - a.length from by omega]
          exact h4
        · -- the span contains I
          push_neg at hc4
          right; right; left
          have h4 := congrArg (List.take I.length) hstep
          rw [List.take_append_of_le_length (by rw [List.length_drop]; omega),
            List.take_left] at h4
          rw [← h4]
          exact drop_take_infix m _ _

/-! ## The patch texts of `patcher.ts` -/

/-- `patcher.ts` `MEDIA_IMPORT`: the import statement inserted by the patch. -/
def MEDIA_IMPORT : Text :=
  "import \x7b sendMediaFeishu \x7d from \"./media.js\";".data

/-- `patcher.ts` `MEDIA_LOGIC`: the media-dispatch block inserted at the head
of the `deliver` function (the value of the template literal). -/
def MEDIA_LOGIC : Text :=
  "\n  // 先发送媒体（图片/文件）- 由 openclaw-feishu-media-fixer 添加\n  if (payload.mediaUrls?.length) \x7b\n    for (const mediaUrl of payload.mediaUrls) \x7b\n      try \x7b\n        await sendMediaFeishu(\x7b\n          cfg,\n          to: chatId,\n          mediaUrl,\n          replyToMessageId,\n          accountId,\n        \x7d);\n        params.runtime.log?.(`feishu[$\x7baccount.accountId\x7d]: sent media: $\x7bmediaUrl\x7d`);\n      \x7d catch (error) \x7b\n        params.runtime.error?.(\n          `feishu[$\x7baccount.accountId\x7d]: failed to send media $\x7bmediaUrl\x7d: $\x7bString(error)\x7d`,\n        );\n      \x7d\n    \x7d\n  \x7d\n".data

/-! ## Splice lemmas: occurrences across an inserted block -/

/-- A span of `A ++ C` lies in `A`, lies in `C`, or straddles the junction. -/
theorem window_cases2 {A C a m b : Text} (h : A ++ C = a ++ m ++ b) :
    m <:+: A ∨ m <:+: C ∨
    (∃ k, 0 < k ∧ k < m.length ∧ m.take k <:+ A ∧ m.drop k <+: C) := by
  have hsplit : (A ++ C).drop a.length = m ++ b := by
    rw [h, List.append_assoc, List.drop_left]
  by_cases hc1 : a.length + m.length ≤ A.length
  · left
    have hiA : a.length ≤ A.length := le_trans (Nat.le_add_right _ _) hc1
    have hAm : m ++ b = A.drop a.length ++ C := by
      rw [← hsplit, List.drop_append_of_le_length hiA]
    have hmn : m = (A.drop a.length).take m.length := by
      have := congrArg (List.take m.length) hAm
      rw [List.take_left, List.take_append_of_le_length
        (by rw [List.length_drop]; omega)] at this
      exact this
    rw [hmn]
    exact drop_take_infix A _ _
  · by_cases hc2 : A.length ≤ a.length
    · right; left
      have hCm : m ++ b = C.drop (a.length - A.length) := by
        rw [← hsplit]
        conv_lhs => rw [show a.length = A.length + (a.length - A.length) from by
          omega, List.drop_append]
      have hmn : m = (C.drop (a.length - A.length)).take m.length := by
        have := congrArg (List.take m.length) hCm
        rw [List.take_left] at this
        exact this
      rw [hmn]
      exact drop_take_infix C _ _
    · push_neg at hc1 hc2
      right; right
      have hd : A.drop a.length ++ C = m ++ b := by
        have hd0 := congrArg (List.drop a.length) h
        rw [List.drop_append_of_le_length (le_of_lt hc2), List.append_assoc,
          List.drop_left] at hd0
        exact hd0
      have hldrop : (A.drop a.length).length = A.length - a.length :=
        List.length_drop _ _
      refine ⟨A.length - a.length, by omega, by omega, ?_, ?_⟩
      · -- A ends with the head of m
        have ht := congrArg (List.take (A.length - a.length)) hd
        rw [List.take_append_of_le_length (by omega),
          List.take_append_of_le_length (by omega),
          List.take_of_length_le (by omega)] at ht
        exact ⟨A.take a.length, by rw [← ht, List.take_append_drop]⟩
      · -- C starts with the tail of m
        have ht := congrArg (List.drop (A.length - a.length)) hd
        rw [List.drop_append_of_le_length (by omega),
          List.drop_append_of_le_length (by omega),
          List.drop_eq_nil_of_le (by omega), List.nil_append] at ht
        exact ⟨b, ht.symm⟩

/-- Inserting a block `I` between `A` and `C` cannot create an occurrence of a
needle `N` that does not occur in `I` alone and cannot straddle the boundaries
of `I`. -/
theorem not_infix_insert {N I : Text}
    (hni : ¬ N <:+: I) (hin : ¬ I <:+: N)
    (hb1 : ∀ k, k < N.length → 0 < k → k ≤ I.length →
      N.drop (N.length - k) ≠ I.take k)
    (hb2 : ∀ k, k < N.length → 0 < k → k ≤ I.length →
      N.take k ≠ I.drop (I.length - k))
    {A C : Text} (h : ¬ N <:+: A ++ C) : ¬ N <:+: A ++ I ++ C := by
  intro hcon
  obtain ⟨a, b, hab⟩ := hcon
  rcases window_cases hab.symm with ⟨a', b', heq⟩ | hmI | hIm |
    ⟨k, hk0, hkI, hkN, heq⟩ | ⟨k, hk0, hkI, hkN, heq⟩
  · exact h ⟨a', b', heq.symm⟩
  · exact hni hmI
  · exact hin hIm
  · exact hb1 k hkN hk0 hkI heq
  · exact hb2 k hkN hk0 hkI heq

/-- An occurrence of `N` in `A ++ C` survives the insertion of any block `I`
at the junction, provided the last character of `A` does not occur in `N`
(so no occurrence straddles the junction). -/
theorem infix_insert_of_getLast {N A C : Text}
    (h : N <:+: A ++ C)
    (hlast : ∀ ch, A.getLast? = some ch → ch ∉ N) :
    ∀ I : Text, N <:+: A ++ I ++ C := by
  intro I
  obtain ⟨a, b, hab⟩ := h
  rcases window_cases2 hab.symm with hA | hC | ⟨k, hk0, hkN, hsuf, _⟩
  · exact hA.trans ⟨[], I ++ C, by simp [List.append_assoc]⟩
  · exact hC.trans ⟨A ++ I, [], by simp⟩
  · exfalso
    have htk : (N.take k) ≠ [] := by
      have hlen2 : (N.take k).length = k := List.length_take_of_le (le_of_lt hkN)
      intro h0
      rw [h0] at hlen2
      simp only [List.length_nil] at hlen2
      omega
    have hlast2 : A.getLast? = (N.take k).getLast? := by
      obtain ⟨t, ht⟩ := hsuf
      rw [← ht, List.getLast?_append]
      rw [List.getLast?_eq_getLast _ htk]
      simp [Option.or]
    have hmem : (N.take k).getLast htk ∈ N := by
      exact List.take_subset _ _ (List.getLast_mem htk)
    exact hlast _ (by rw [hlast2, List.getLast?_eq_getLast _ htk]) hmem

/-- Structural facts about any span matched by `deliverAnchor`: it starts with
`deliver:`, ends with `ReplyPayload`, and has exactly 34 non-whitespace
characters (the characters of its six literal chunks). -/
theorem PM_deliver_facts {m : Text} (h : PM deliverAnchor m) :
    "deliver:".data <+: m ∧ "ReplyPayload".data <:+ m ∧
    m.countP (fun c => !(jsWs c)) = 34 := by
  simp only [deliverAnchor] at h
  cases h with | str h =>
  cases h with | @star _ _ w1 _ hw1 h =>
  cases h with | str h =>
  cases h with | @star _ _ w2 _ hw2 h =>
  cases h with | str h =>
  cases h with | @star _ _ w3 _ hw3 h =>
  cases h with | str h =>
  cases h with | @star _ _ w4 _ hw4 h =>
  cases h with | str h =>
  cases h with | @star _ _ w5 _ hw5 h =>
  cases h with | str h =>
  cases h with | nil =>
  refine ⟨List.prefix_append _ _, ?_, ?_⟩
  · exact ⟨"deliver:".data ++ w1 ++ "async".data ++ w2 ++ "(".data ++ w3 ++
      "payload".data ++ w4 ++ ":".data ++ w5, by simp [List.append_assoc]⟩
  · have e1 : w1.countP (fun c => !(jsWs c)) = 0 :=
      List.countP_eq_zero.mpr (fun c hc => by rw [hw1 c hc]; simp)
    have e2 : w2.countP (fun c => !(jsWs c)) = 0 :=
      List.countP_eq_zero.mpr (fun c hc => by rw [hw2 c hc]; simp)
    have e3 : w3.countP (fun c => !(jsWs c)) = 0 :=
      List.countP_eq_zero.mpr (fun c hc => by rw [hw3 c hc]; simp)
    have e4 : w4.countP (fun c => !(jsWs c)) = 0 :=
      List.countP_eq_zero.mpr (fun c hc => by rw [hw4 c hc]; simp)
    have e5 : w5.countP (fun c => !(jsWs c)) = 0 :=
      List.countP_eq_zero.mpr (fun c hc => by rw [hw5 c hc]; simp)
    simp only [List.countP_append, e1, e2, e3, e4, e5]
    decide

/-- Inserting the media-import line (with its surrounding newline) at any
junction cannot create a `deliverAnchor` match that was not already present. -/
theorem deliver_not_occurs_insert {I : Text}
    (hI : I = '\n' :: MEDIA_IMPORT ∨ I = MEDIA_IMPORT ++ ['\n'])
    {A C : Text}
    (h : ¬ Occurs deliverAnchor (A ++ C)) : ¬ Occurs deliverAnchor (A ++ I ++ C) := by
  rintro ⟨a, m, b, hab, hpm⟩
  obtain ⟨hpre, hsuf, hcount⟩ := PM_deliver_facts hpm
  have hRP : ("ReplyPayload".data).length = 12 := by decide
  have hDE : ("deliver:".data).length = 8 := by decide
  rcases window_cases hab with ⟨a', b', heq⟩ | hmI | hIm |
    ⟨k, hk0, hkI, hkm, heq⟩ | ⟨k, hk0, hkI, hkm, heq⟩
  · exact h ⟨a', m, b', heq, hpm⟩
  · -- the span would lie inside the inserted line, but `:` does not occur there
    have hc : (':' : Char) ∈ m := hpre.subset (by decide)
    have hcI : (':' : Char) ∈ I := hmI.subset hc
    rcases hI with rfl | rfl <;> revert hcI <;> decide
  · -- the span would contain the inserted line: too many non-whitespace chars
    have hle := hIm.sublist.countP_le (p := fun c => !(jsWs c))
    rw [hcount] at hle
    have h40 : 34 < I.countP (fun c => !(jsWs c)) := by
      rcases hI with rfl | rfl <;> decide
    omega
  · -- the tail of the span would be a prefix of the inserted line
    obtain ⟨t, ht⟩ := hsuf
    have hm12 : m.length = t.length + 12 := by
      rw [← ht, List.length_append, hRP]
    by_cases hk12 : k ≤ 12
    · have hdrop : m.drop (m.length - k) = "ReplyPayload".data.drop (12 - k) := by
        calc m.drop (m.length - k)
            = (t ++ "ReplyPayload".data).drop (t.length + (12 - k)) := by
              rw [ht]; congr 1; omega
          _ = "ReplyPayload".data.drop (12 - k) := List.drop_append _
      rw [hdrop] at heq
      rcases hI with rfl | rfl
      · revert heq; interval_cases k <;> decide
      · revert heq; interval_cases k <;> decide
    · push_neg at hk12
      have hdrop : m.drop (m.length - k) =
          t.drop (t.length - (k - 12)) ++ "ReplyPayload".data := by
        calc m.drop (m.length - k)
            = (t ++ "ReplyPayload".data).drop (t.length - (k - 12)) := by
              rw [ht]; congr 1; omega
          _ = t.drop (t.length - (k - 12)) ++ "ReplyPayload".data :=
              List.drop_append_of_le_length (by omega)
      have hy : ('y' : Char) ∈ I.take k := by
        rw [← heq, hdrop]
        exact List.mem_append_right _ (by decide)
      have hyI : ('y' : Char) ∈ I := List.take_subset _ _ hy
      rcases hI with rfl | rfl <;> revert hyI <;> decide
  · -- the head of the span would be a suffix of the inserted line
    obtain ⟨u, hu⟩ := hpre
    by_cases hk8 : k ≤ 8
    · have htake : m.take k = "deliver:".data.take k := by
        rw [← hu]
        exact List.take_append_of_le_length (by omega)
      rw [htake] at heq
      rcases hI with rfl | rfl
      · revert heq; interval_cases k <;> decide
      · revert heq; interval_cases k <;> decide
    · push_neg at hk8
      have htake : m.take k = "deliver:".data ++ u.take (k - 8) := by
        calc m.take k = ("deliver:".data ++ u).take (("deliver:".data).length + (k - 8)) := by
              rw [← hu]; congr 1; omega
          _ = "deliver:".data ++ u.take (k - 8) := List.take_append _
      have hc : (':' : Char) ∈ I.drop (I.length - k) := by
        rw [← heq, htake]
        exact List.mem_append_left _ (by decide)
      have hcI : (':' : Char) ∈ I := List.drop_subset _ _ hc
      rcases hI with rfl | rfl <;> revert hcI <;> decide

/-! ## Data model (`types/index.ts`) -/

/-- `FixerError`: the tagged error codes. -/
inductive FixerError where
  | OPENCLAW_NOT_FOUND
  | FILE_NOT_FOUND
  | ALREADY_FIXED
  | NOT_FIXED
  | PERMISSION_DENIED
  | PATCH_FAILED
  | SERVICE_ERROR
  | BACKUP_NOT_FOUND
deriving DecidableEq

/-- A `{code, message}` pair (`FixerErrorInfo`; the raw `Error` cause object
is not modelled). -/
structure FixerErrorInfo where
  code : FixerError
  message : String
deriving DecidableEq

/-- `CheckStatus`. -/
inductive CheckStatus where
  | HEALTHY
  | FIXED
  | NEEDS_FIX
  | UNKNOWN
  | ERROR
  | OPENCLAW_NOT_FOUND
  | FILE_NOT_FOUND
  | READ_ERROR
deriving DecidableEq

/-- `CheckIssue` (the fields the detector populates). -/
structure CheckIssue where
  type : String
  code : FixerError
  message : String
  file : Option String := none
  suggestion : Option String := none
deriving DecidableEq

/-- `CheckResult` (the fields produced by content classification and consumed
by the patcher). -/
structure CheckResult where
  hasProblem : Bool
  needsFix : Option Bool := none
  status : Option CheckStatus := none
  details : List String := []
  issues : List CheckIssue := []
  checkedFiles : List String := []
  targetFile : Option String := none
deriving DecidableEq

/-- `FixResult` (the fields `Patcher.apply` populates; the raw `Error` object
is not modelled). -/
structure FixResult where
  success : Bool
  message : String
  backupPath : Option String := none
  errors : List FixerErrorInfo := []
deriving DecidableEq

/-! ## The detector (`detector.ts`, steps 5–8 of `check`) -/

namespace ProblemDetector

/-- The issue pushed when the import marker is absent (step 5). -/
def missingImportIssue (targetFile : String) : CheckIssue :=
  { type := "missing", code := .NOT_FIXED,
    message := "缺少 sendMediaFeishu 导入语句", file := some targetFile,
    suggestion := some "需要添加: import \x7b sendMediaFeishu \x7d from \"./media.js\";" }

/-- The issue pushed when the logic marker is absent (step 6). -/
def missingLogicIssue (targetFile : String) : CheckIssue :=
  { type := "missing", code := .NOT_FIXED, message := "缺少媒体发送逻辑",
    file := some targetFile,
    suggestion := some "需要在 deliver 函数开头添加媒体发送代码" }

/-- The warning issue pushed when the logic marker is present but the call
marker is absent (step 7). -/
def missingCallIssue (targetFile : String) : CheckIssue :=
  { type := "warning", code := .NOT_FIXED,
    message := "缺少 sendMediaFeishu 函数调用", file := some targetFile,
    suggestion := some "需要调用 sendMediaFeishu 函数发送媒体" }

/-- `ProblemDetector.check`, steps 5–8: classification of the target file's
content after the install path and the target file have been resolved and the
file has been read.  (Steps 1–4 resolve paths on disk and shell out to `which`
and `npm`; they are environment probing outside this model.) -/
def check (targetFile : String) (content : Text) : CheckResult :=
  let hasMediaImport := testPieces MEDIA_IMPORT_PATTERN content
  let issues1 : List CheckIssue :=
    if !hasMediaImport then [missingImportIssue targetFile] else []
  let hasMediaLogic := testPieces MEDIA_LOGIC_PATTERN content
  let issues2 : List CheckIssue :=
    if !hasMediaLogic then [missingLogicIssue targetFile] else []
  let hasSendMediaCall := testPieces SEND_MEDIA_CALL_PATTERN content
  let issues3 : List CheckIssue :=
    if !hasSendMediaCall && hasMediaLogic then [missingCallIssue targetFile] else []
  let isFixed := hasMediaImport && hasMediaLogic && hasSendMediaCall
  let details : List String :=
    if isFixed then
      ["OpenClaw 飞书图片发送功能已正常配置", "媒体发送功能已启用"]
    else
      ["OpenClaw 飞书图片发送功能需要修复"]
      ++ (if !hasMediaImport then ["- 缺少 sendMediaFeishu 导入语句"] else [])
      ++ (if !hasMediaLogic then ["- 缺少媒体发送逻辑"] else [])
      ++ (if !hasSendMediaCall && hasMediaLogic then
            ["- 缺少 sendMediaFeishu 函数调用"] else [])
  { hasProblem := !isFixed,
    needsFix := some (!isFixed),
    status := some (if isFixed then CheckStatus.FIXED else CheckStatus.NEEDS_FIX),
    details := details,
    issues := issues1 ++ issues2 ++ issues3,
    checkedFiles := [targetFile],
    targetFile := some targetFile }

end ProblemDetector

/-! ## The patcher (`patcher.ts`) -/

/-- The on-disk state of the patch target at apply time. -/
inductive FileAccess where
  | absent
  | unreadable (content : Text)
  | readable (content : Text)
deriving DecidableEq

/-- The text of a `FileAccess` (empty when the file is absent). -/
def FileAccess.text : FileAccess → Text
  | .absent => []
  | .unreadable c => c
  | .readable c => c

namespace Patcher

/-- `Patcher.addImport` (algorithm step 1): skip when the helper symbol and
its module reference are both present; otherwise insert the import line after
the `send.js` anchor, or after the line of the last `import ` occurrence
(JS `indexOf('\n', lastIndexOf('import '))`, clamping `-1` to `0`), or throw
`PATCH_FAILED`. -/
def addImport (content : Text) : Except FixerErrorInfo Text :=
  if includes content "sendMediaFeishu".data && includes content "./media.js".data then
    .ok content
  else if testPieces importAnchor content then
    .ok (replacePieces importAnchor (fun m => m ++ '\n' :: MEDIA_IMPORT) content)
  else
    let lastImportIndex : Int := jsLastIndexOf content "import ".data
    let nextNewlineIndex : Int := jsIndexOfFrom content ['\n'] lastImportIndex
    if nextNewlineIndex ≠ -1 then
      .ok (content.take (nextNewlineIndex.toNat + 1) ++ MEDIA_IMPORT ++
        '\n' :: content.drop (nextNewlineIndex.toNat + 1))
    else
      .error ⟨.PATCH_FAILED, "无法找到合适的位置添加 import 语句"⟩

/-- `Patcher.addMediaLogic` (algorithm step 2): skip when the logic marker is
already present; otherwise require the `deliver` anchor, then replace the full
handler-opening pattern `m` by `m ++ MEDIA_LOGIC`. -/
def addMediaLogic (content : Text) : Except FixerErrorInfo Text :=
  if includes content "payload.mediaUrls?.length".data then
    .ok content
  else if testPieces deliverAnchor content then
    match searchFull content with
    | some (i, n) =>
      .ok (content.take i ++ ((content.drop i).take n ++ MEDIA_LOGIC) ++
        content.drop (i + n))
    | none => .error ⟨.PATCH_FAILED, "无法解析 deliver 函数结构"⟩
  else
    .error ⟨.PATCH_FAILED, "无法找到 deliver 函数定义"⟩

/-- `Patcher.verify` (algorithm step 3): the four `String.includes` checks. -/
def verify (content : Text) : Bool :=
  (includes content "sendMediaFeishu".data && includes content "./media.js".data) &&
  includes content "payload.mediaUrls?.length".data &&
  includes content "await sendMediaFeishu".data &&
  includes content "openclaw-feishu-media-fixer".data

/-- The backup-path value recorded in the `FixResult` (the store's name for
the copy; its exact string is environment-dependent and not modelled). -/
def backupPathOf (targetFile : String) (noBackup : Bool) : Option String :=
  if noBackup then none else some (targetFile ++ ".backup")

/-- The shared catch branch of `Patcher.apply`: wrap the thrown error as a
`PATCH_FAILED` outcome; with a backup taken, the store restores the content
saved at create time, and without one nothing was written (the write happens
only after `verify` passes), so either way the target ends with the original
content. -/
def applyFail (targetFile : String) (noBackup : Bool) (content : Text)
    (e : FixerErrorInfo) : FixResult × FileAccess :=
  ({ success := false, message := "应用补丁失败: " ++ e.message,
     errors := [⟨.PATCH_FAILED, "应用补丁失败: " ++ e.message⟩],
     backupPath := backupPathOf targetFile noBackup }, .readable content)

/-- `Patcher.apply`.  The filesystem is the target file alone (`fs`).  The
backup store is modelled as able to take the copy (the target exists and was
just read).  The dynamic parts of messages (raw JS error text) are not
modelled. -/
def apply (checkResult : CheckResult) (noBackup : Bool) (fs : FileAccess) :
    FixResult × FileAccess :=
  match checkResult.targetFile with
  | none =>
    ({ success := false, message := "未找到目标文件",
       errors := [⟨.FILE_NOT_FOUND, "未找到目标文件"⟩] }, fs)
  | some targetFile =>
    if !checkResult.hasProblem then
      ({ success := false, message := "已经修复过了，无需重复修复",
         errors := [⟨.ALREADY_FIXED, "已经修复过了"⟩] }, fs)
    else
      match fs with
      | .absent =>
        ({ success := false, message := "目标文件不存在: " ++ targetFile,
           errors := [⟨.FILE_NOT_FOUND, "目标文件不存在: " ++ targetFile⟩] }, fs)
      | .unreadable _ =>
        ({ success := false, message := "无法读取文件",
           errors := [⟨.PERMISSION_DENIED, "无法读取文件"⟩] }, fs)
      | .readable content =>
        match addImport content with
        | .error e => applyFail targetFile noBackup content e
        | .ok c1 =>
          match addMediaLogic c1 with
          | .error e => applyFail targetFile noBackup content e
          | .ok c2 =>
            if verify c2 then
              ({ success := true, message := "修复补丁应用成功",
                 backupPath := backupPathOf targetFile noBackup }, .readable c2)
            else
              applyFail targetFile noBackup content
                ⟨.PATCH_FAILED, "补丁验证失败，修复后的代码不包含预期的内容"⟩

end Patcher

/-! ## The backup store (`backup.ts`) -/

/-- A flat filesystem: file contents by path. -/
abbrev Fs := String → Option Text

/-- Write one file. -/
def Fs.write (fs : Fs) (p : String) (c : Text) : Fs :=
  fun q => if q = p then some c else fs q

/-- `path.basename`: the component after the last `/` (for the plain
absolute file paths used here). -/
def basename (p : String) : String :=
  String.mk ((p.data.reverse.takeWhile (fun c => !(c == '/'))).reverse)

namespace BackupManager

/-- `new Date().toISOString().replace(/[:.]/g, '-')` — the timestamp embedded
in the backup file name by `create`. -/
def encodeTimestamp (iso : String) : String :=
  String.mk (iso.data.map fun c => if c = ':' ∨ c = '.' then '-' else c)

/-- The backup file name chosen by `create`:
`` `${basename(filePath)}.backup-${timestamp}` ``. -/
def backupFileName (filePath : String) (nowIso : String) : String :=
  basename filePath ++ ".backup-" ++ encodeTimestamp nowIso

/-- `BackupManager.create`: byte-exact copy into the backup directory under
the timestamped name (`nowIso` is the current instant in ISO form; the copy
is modelled as succeeding — `PERMISSION_DENIED` on a failed write is a raw
filesystem outcome outside the model). -/
def create (backupDir : String) (nowIso : String) (fs : Fs) (filePath : String) :
    Except FixerErrorInfo (String × Fs) :=
  match fs filePath with
  | none => .error ⟨.FILE_NOT_FOUND, "文件不存在: " ++ filePath⟩
  | some content =>
    let backupPath := backupDir ++ "/" ++ backupFileName filePath nowIso
    .ok (backupPath, fs.write backupPath content)

/-- `BackupManager.restore`: byte-exact copy of the backup over the target. -/
def restore (fs : Fs) (backupPath targetPath : String) : Except FixerErrorInfo Fs :=
  match fs backupPath with
  | none => .error ⟨.BACKUP_NOT_FOUND, "备份文件不存在: " ++ backupPath⟩
  | some content => .ok (fs.write targetPath content)

/-- The `file.match(/\.backup-(.+)$/)` capture used by `list`: everything
after the first `.backup-`, when nonempty. -/
def timestampCapture (file : String) : Option String :=
  match searchPieces [Piece.str ".backup-".data] file.data with
  | some (i, n) =>
    let rest := file.data.drop (i + n)
    if rest.isEmpty then none else some (String.mk rest)
  | none => none

/-- The timestamp-string recovery applied by `list` to the capture: first
replace every hyphen by a colon, then replace every hyphen by a dot (the two
global single-character `replace` calls of the source, in that order). -/
def recoverTimestamp (embedded : String) : String :=
  let s1 := String.mk (embedded.data.map fun c => if c = '-' then ':' else c)
  String.mk (s1.data.map fun c => if c = '-' then '.' else c)

end BackupManager

/-! ## Bridging lemmas for the patcher proofs -/

theorem includes_eq_true_iff {s N : Text} : includes s N = true ↔ N <:+: s := by
  simp [includes]

theorem includes_eq_false_iff {s N : Text} : includes s N = false ↔ ¬ N <:+: s := by
  simp [includes]

/-- Any span matched by `importAnchor` ends in a quote character. -/
theorem PM_importAnchor_last {m : Text} (h : PM importAnchor m) :
    ∃ t q, m = t ++ [q] ∧ quoteClass q = true := by
  simp only [importAnchor] at h
  cases h with | str h =>
  cases h with | @star _ _ w1 _ hw1 h =>
  cases h with | str h =>
  cases h with | @star _ _ w2 _ hw2 h =>
  cases h with | str h =>
  cases h with | @star _ _ w3 _ hw3 h =>
  cases h with | str h =>
  cases h with | @star _ _ w4 _ hw4 h =>
  cases h with | str h =>
  cases h with | @star _ _ w5 _ hw5 h =>
  cases h with | @one _ _ q1 _ hq1 h =>
  cases h with | str h =>
  cases h with | @one _ _ q2 _ hq2 h =>
  cases h with | nil =>
  refine ⟨"import".data ++ w1 ++ "\x7b".data ++ w2 ++ "sendMarkdownCardFeishu".data ++
    w3 ++ "\x7d".data ++ w4 ++ "from".data ++ w5 ++ q1 :: "./send.js".data,
    q2, by simp [List.append_assoc], hq2⟩

/-- When `jsIndexOfFrom` does not return `-1`, the needle occurs at the
returned (nonnegative) position. -/
theorem jsIndexOfFrom_spec {s needle : Text} {frm : Int}
    (hne : jsIndexOfFrom s needle frm ≠ -1) :
    ∃ p : Nat, jsIndexOfFrom s needle frm = (p : Int) ∧ needle <+: s.drop p := by
  rw [jsIndexOfFrom] at hne ⊢
  rcases hfind : searchPieces [Piece.str needle] (s.drop frm.toNat) with _ | ⟨j, len⟩
  · rw [hfind] at hne
    simp at hne
  · obtain ⟨hle, hm⟩ := searchPieces_sound hfind
    refine ⟨frm.toNat + j, ?_, ?_⟩
    · show ((frm.toNat : Int) + (j : Int)) = ((frm.toNat + j : Nat) : Int)
      push_cast
      ring
    · rw [matchPieces] at hm
      split at hm
      · have hpre : needle <+: (s.drop frm.toNat).drop j :=
          List.isPrefixOf_iff_prefix.mp ‹_›
        rw [List.drop_drop] at hpre
        exact hpre
      · exact absurd hm (by simp)

/-- The three possible outcomes of a successful `addImport`: the text is
unchanged, or the import line is inserted (with a newline on one side) at a
junction whose left part ends in a quote or a newline. -/
theorem addImport_shape {content c1 : Text}
    (h : Patcher.addImport content = .ok c1) :
    c1 = content ∨
    ∃ A C q, content = A ++ C ∧ A.getLast? = some q ∧
      (quoteClass q = true ∨ q = '\n') ∧
      (c1 = A ++ ('\n' :: MEDIA_IMPORT) ++ C ∨
       c1 = A ++ (MEDIA_IMPORT ++ ['\n']) ++ C) := by
  simp only [Patcher.addImport] at h
  split at h
  · left
    exact (Except.ok.inj h).symm
  · split at h
    · -- anchor branch
      right
      have htest : testPieces importAnchor content = true := ‹_›
      rw [testPieces] at htest
      obtain ⟨⟨i, n⟩, hin⟩ := Option.isSome_iff_exists.mp htest
      obtain ⟨hle, hmp⟩ := searchPieces_sound hin
      obtain ⟨hnle, hpm⟩ := matchPieces_sound hmp
      obtain ⟨t, q, htq, hq⟩ := PM_importAnchor_last hpm
      rw [replacePieces, hin] at h
      refine ⟨content.take i ++ (content.drop i).take n, content.drop (i + n), q,
        ?_, ?_, Or.inl hq, Or.inl ?_⟩
      · rw [List.append_assoc]
        conv_lhs => rw [← List.take_append_drop i content,
          ← List.take_append_drop n (content.drop i)]
        rw [List.drop_drop]
      · rw [htq, ← List.append_assoc]
        exact List.getLast?_concat _
      · have hc1 : content.take i ++ ((content.drop i).take n ++
            '\n' :: MEDIA_IMPORT) ++ content.drop (i + n) = c1 :=
          Except.ok.inj h
        rw [← hc1]
        simp [List.append_assoc]
    · -- fallback branch
      split at h
      · right
        obtain ⟨p, hp, hpre⟩ := jsIndexOfFrom_spec ‹_›
        obtain ⟨rest, hrest⟩ := hpre
        rw [hp] at h
        have htoNat : ((p : Int)).toNat = p := Int.toNat_natCast p
        rw [htoNat] at h
        have htake : content.take (p + 1) = content.take p ++ ['\n'] := by
          rw [List.take_add, ← hrest]
          rfl
        have hdropsplit : content = content.take (p + 1) ++ content.drop (p + 1) :=
          (List.take_append_drop _ _).symm
        refine ⟨content.take (p + 1), content.drop (p + 1), '\n', hdropsplit, ?_,
          Or.inr rfl, Or.inr ?_⟩
        · rw [htake]
          exact List.getLast?_concat _
        · have hc1 : content.take (p + 1) ++ MEDIA_IMPORT ++
              '\n' :: content.drop (p + 1) = c1 :=
            Except.ok.inj h
          rw [← hc1]
          simp [List.append_assoc]
      · exact absurd h (by simp)

/-- The import insertions cannot create an occurrence of the logic marker. -/
theorem marker_not_infix_insert {I A C : Text}
    (hI : I = '\n' :: MEDIA_IMPORT ∨ I = MEDIA_IMPORT ++ ['\n'])
    (h : ¬ "payload.mediaUrls?.length".data <:+: A ++ C) :
    ¬ "payload.mediaUrls?.length".data <:+: A ++ I ++ C := by
  rcases hI with rfl | rfl
  · exact not_infix_insert (by decide) (by decide) (by decide) (by decide) h
  · exact not_infix_insert (by decide) (by decide) (by decide) (by decide) h

/-- The import insertions cannot create an occurrence of the call marker. -/
theorem awaitCall_not_infix_insert {I A C : Text}
    (hI : I = '\n' :: MEDIA_IMPORT ∨ I = MEDIA_IMPORT ++ ['\n'])
    (h : ¬ "await sendMediaFeishu".data <:+: A ++ C) :
    ¬ "await sendMediaFeishu".data <:+: A ++ I ++ C := by
  rcases hI with rfl | rfl
  · exact not_infix_insert (by decide) (by decide) (by decide) (by decide) h
  · exact not_infix_insert (by decide) (by decide) (by decide) (by decide) h

/-- The logic marker survives the import insertions: its occurrences cannot
straddle the junction, whose left side ends in a quote or a newline. -/
theorem marker_infix_insert {A C : Text} {q : Char}
    (h : "payload.mediaUrls?.length".data <:+: A ++ C)
    (hq : A.getLast? = some q) (hqc : quoteClass q = true ∨ q = '\n') :
    ∀ I : Text, "payload.mediaUrls?.length".data <:+: A ++ I ++ C := by
  apply infix_insert_of_getLast h
  intro ch hch
  rw [hq] at hch
  cases hch
  rcases hqc with hqc | rfl
  · rw [quoteClass] at hqc
    rcases Bool.or_eq_true_iff.mp hqc with h1 | h1
    · rw [show q = aposChar from by simpa using h1]
      decide
    · rw [show q = '"' from by simpa using h1]
      decide
  · decide

/-! ## Unfolding equations for `Patcher.apply` -/

theorem apply_none_eq (cr : CheckResult) (nb : Bool) (fs : FileAccess)
    (hcr : cr.targetFile = none) :
    Patcher.apply cr nb fs =
      ({ success := false, message := "未找到目标文件",
         errors := [⟨.FILE_NOT_FOUND, "未找到目标文件"⟩] }, fs) := by
  rw [Patcher.apply, hcr]

theorem apply_already_fixed_eq (cr : CheckResult) (tf : String) (nb : Bool)
    (fs : FileAccess) (hcr : cr.targetFile = some tf) (hp : cr.hasProblem = false) :
    Patcher.apply cr nb fs =
      ({ success := false, message := "已经修复过了，无需重复修复",
         errors := [⟨.ALREADY_FIXED, "已经修复过了"⟩] }, fs) := by
  rw [Patcher.apply, hcr, hp]
  rfl

theorem apply_absent_eq (cr : CheckResult) (tf : String) (nb : Bool)
    (hcr : cr.targetFile = some tf) (hp : cr.hasProblem = true) :
    Patcher.apply cr nb .absent =
      ({ success := false, message := "目标文件不存在: " ++ tf,
         errors := [⟨.FILE_NOT_FOUND, "目标文件不存在: " ++ tf⟩] }, .absent) := by
  rw [Patcher.apply, hcr, hp]
  rfl

theorem apply_unreadable_eq (cr : CheckResult) (tf : String) (nb : Bool) (c : Text)
    (hcr : cr.targetFile = some tf) (hp : cr.hasProblem = true) :
    Patcher.apply cr nb (.unreadable c) =
      ({ success := false, message := "无法读取文件",
         errors := [⟨.PERMISSION_DENIED, "无法读取文件"⟩] }, .unreadable c) := by
  rw [Patcher.apply, hcr, hp]
  rfl

theorem apply_readable_eq (cr : CheckResult) (tf : String) (nb : Bool) (content : Text)
    (hcr : cr.targetFile = some tf) (hp : cr.hasProblem = true) :
    Patcher.apply cr nb (.readable content) =
      (match Patcher.addImport content with
       | .error e => Patcher.applyFail tf nb content e
       | .ok c1 =>
         match Patcher.addMediaLogic c1 with
         | .error e => Patcher.applyFail tf nb content e
         | .ok c2 =>
           if Patcher.verify c2 then
             ({ success := true, message := "修复补丁应用成功",
                backupPath := Patcher.backupPathOf tf nb }, .readable c2)
           else
             Patcher.applyFail tf nb content
               ⟨.PATCH_FAILED, "补丁验证失败，修复后的代码不包含预期的内容"⟩) := by
  rw [Patcher.apply, hcr, hp]
  rfl

theorem apply_importError_eq (cr : CheckResult) (tf : String) (nb : Bool)
    (content : Text) (e : FixerErrorInfo)
    (hcr : cr.targetFile = some tf) (hp : cr.hasProblem = true)
    (hai : Patcher.addImport content = .error e) :
    Patcher.apply cr nb (.readable content) = Patcher.applyFail tf nb content e := by
  rw [apply_readable_eq cr tf nb content hcr hp, hai]

theorem apply_step2_eq (cr : CheckResult) (tf : String) (nb : Bool)
    (content c1 : Text)
    (hcr : cr.targetFile = some tf) (hp : cr.hasProblem = true)
    (hai : Patcher.addImport content = .ok c1) :
    Patcher.apply cr nb (.readable content) =
      (match Patcher.addMediaLogic c1 with
       | .error e => Patcher.applyFail tf nb content e
       | .ok c2 =>
         if Patcher.verify c2 then
           ({ success := true, message := "修复补丁应用成功",
              backupPath := Patcher.backupPathOf tf nb }, .readable c2)
         else
           Patcher.applyFail tf nb content
             ⟨.PATCH_FAILED, "补丁验证失败，修复后的代码不包含预期的内容"⟩) := by
  rw [apply_readable_eq cr tf nb content hcr hp, hai]

theorem apply_logicError_eq (cr : CheckResult) (tf : String) (nb : Bool)
    (content c1 : Text) (e : FixerErrorInfo)
    (hcr : cr.targetFile = some tf) (hp : cr.hasProblem = true)
    (hai : Patcher.addImport content = .ok c1)
    (haml : Patcher.addMediaLogic c1 = .error e) :
    Patcher.apply cr nb (.readable content) = Patcher.applyFail tf nb content e := by
  rw [apply_step2_eq cr tf nb content c1 hcr hp hai, haml]

theorem apply_step3_eq (cr : CheckResult) (tf : String) (nb : Bool)
    (content c1 c2 : Text)
    (hcr : cr.targetFile = some tf) (hp : cr.hasProblem = true)
    (hai : Patcher.addImport content = .ok c1)
    (haml : Patcher.addMediaLogic c1 = .ok c2) :
    Patcher.apply cr nb (.readable content) =
      (if Patcher.verify c2 then
         ({ success := true, message := "修复补丁应用成功",
            backupPath := Patcher.backupPathOf tf nb }, .readable c2)
       else
         Patcher.applyFail tf nb content
           ⟨.PATCH_FAILED, "补丁验证失败，修复后的代码不包含预期的内容"⟩) := by
  rw [apply_step2_eq cr tf nb content c1 hcr hp hai, haml]

/-- Core of the self-verification guarantee: a successful `apply` leaves the
target readable with a text passing `Patcher.verify` (shared helper). -/
theorem apply_success_verify {cr : CheckResult} {nb : Bool} {fs : FileAccess}
    (h : (Patcher.apply cr nb fs).1.success = true) :
    ∃ c', (Patcher.apply cr nb fs).2 = .readable c' ∧ Patcher.verify c' = true := by
  rcases hcr : cr.targetFile with _ | tf
  · rw [apply_none_eq cr nb fs hcr] at h
    simp at h
  · cases hp : cr.hasProblem
    · rw [apply_already_fixed_eq cr tf nb fs hcr hp] at h
      simp at h
    · rcases fs with _ | c | content
      · rw [apply_absent_eq cr tf nb hcr hp] at h
        simp at h
      · rw [apply_unreadable_eq cr tf nb c hcr hp] at h
        simp at h
      · rcases hai : Patcher.addImport content with e | c1
        · rw [apply_importError_eq cr tf nb content e hcr hp hai] at h
          simp [Patcher.applyFail] at h
        · rcases haml : Patcher.addMediaLogic c1 with e | c2
          · rw [apply_logicError_eq cr tf nb content c1 e hcr hp hai haml] at h
            simp [Patcher.applyFail] at h
          · rw [apply_step3_eq cr tf nb content c1 c2 hcr hp hai haml] at h ⊢
            cases hv : Patcher.verify c2
            · rw [hv] at h
              simp [Patcher.applyFail] at h
            · exact ⟨c2, by simp, hv⟩

/-- A text carrying all four `verify` substrings (used as a witness input). -/
def c7WitnessText : Text :=
  ("sendMediaFeishu ./media.js payload.mediaUrls?.length await sendMediaFeishu openclaw-feishu-media-fixer").data

/-! ## The claims -/

/-- C3: For every document text that the detector classifies (install and
target file resolved, file readable), the report's `problem` flag is false
iff the text matches all three marker patterns (import, logic, call); any one
marker absent makes `problem` true. -/
theorem C3_problem_iff_three_markers (targetFile : String) (content : Text) :
    (ProblemDetector.check targetFile content).hasProblem = false ↔
      (testPieces MEDIA_IMPORT_PATTERN content = true ∧
       testPieces MEDIA_LOGIC_PATTERN content = true ∧
       testPieces SEND_MEDIA_CALL_PATTERN content = true) := by
  cases hi : testPieces MEDIA_IMPORT_PATTERN content <;>
    cases hl : testPieces MEDIA_LOGIC_PATTERN content <;>
      cases hc : testPieces SEND_MEDIA_CALL_PATTERN content <;>
        simp [ProblemDetector.check, hi, hl, hc]

/-- C6: For every document text, when the logic marker matches but the call
marker does not, the detector emits the warning-severity missing-call issue;
when the logic marker is absent, no missing-call issue is emitted. -/
theorem C6_missing_call_warning (targetFile : String) (content : Text) :
    (testPieces MEDIA_LOGIC_PATTERN content = true →
     testPieces SEND_MEDIA_CALL_PATTERN content = false →
     ProblemDetector.missingCallIssue targetFile ∈
       (ProblemDetector.check targetFile content).issues) ∧
    (testPieces MEDIA_LOGIC_PATTERN content = false →
     ProblemDetector.missingCallIssue targetFile ∉
       (ProblemDetector.check targetFile content).issues) := by
  constructor
  · intro hl hc
    cases hi : testPieces MEDIA_IMPORT_PATTERN content <;>
      simp [ProblemDetector.check, hi, hl, hc]
  · intro hl
    cases hi : testPieces MEDIA_IMPORT_PATTERN content <;>
      cases hc : testPieces SEND_MEDIA_CALL_PATTERN content <;>
        simp [ProblemDetector.check, hi, hl, hc,
          ProblemDetector.missingCallIssue, ProblemDetector.missingImportIssue,
          ProblemDetector.missingLogicIssue, CheckIssue.mk.injEq]
/-- Witness for C6 at concrete inputs: a text with the logic marker and no
call gets the warning; a text without the logic marker does not. -/
theorem C6_missing_call_warning_witness :
    (ProblemDetector.missingCallIssue "t" ∈
      (ProblemDetector.check "t" "payload.mediaUrls?.length".data).issues) ∧
    (ProblemDetector.missingCallIssue "t" ∉
      (ProblemDetector.check "t" "other".data).issues) :=
  ⟨(C6_missing_call_warning "t" _).1 (by decide) (by decide),
   (C6_missing_call_warning "t" _).2 (by decide)⟩

/-- C5: `Patcher.apply` checks its four preconditions in order, each a
distinct early-exit `{code, message}` failure: missing `targetFile` →
`FILE_NOT_FOUND`; no problem in the report → `ALREADY_FIXED`; target absent
on disk → `FILE_NOT_FOUND`; unreadable file → `PERMISSION_DENIED`.  Each
equation holds for all later-check states, so a later check's error is never
returned when an earlier one fails. -/
theorem C5_preconditions_in_order (cr : CheckResult) (nb : Bool) (fs : FileAccess) :
    (cr.targetFile = none →
      Patcher.apply cr nb fs =
        ({ success := false, message := "未找到目标文件",
           errors := [⟨.FILE_NOT_FOUND, "未找到目标文件"⟩] }, fs)) ∧
    (∀ tf, cr.targetFile = some tf → cr.hasProblem = false →
      Patcher.apply cr nb fs =
        ({ success := false, message := "已经修复过了，无需重复修复",
           errors := [⟨.ALREADY_FIXED, "已经修复过了"⟩] }, fs)) ∧
    (∀ tf, cr.targetFile = some tf → cr.hasProblem = true → fs = .absent →
      Patcher.apply cr nb fs =
        ({ success := false, message := "目标文件不存在: " ++ tf,
           errors := [⟨.FILE_NOT_FOUND, "目标文件不存在: " ++ tf⟩] }, fs)) ∧
    (∀ tf c, cr.targetFile = some tf → cr.hasProblem = true → fs = .unreadable c →
      Patcher.apply cr nb fs =
        ({ success := false, message := "无法读取文件",
           errors := [⟨.PERMISSION_DENIED, "无法读取文件"⟩] }, fs)) := by
  refine ⟨fun hcr => apply_none_eq cr nb fs hcr,
    fun tf hcr hp => apply_already_fixed_eq cr tf nb fs hcr hp,
    fun tf hcr hp hfs => ?_, fun tf c hcr hp hfs => ?_⟩
  · rw [hfs]
    exact apply_absent_eq cr tf nb hcr hp
  · rw [hfs]
    exact apply_unreadable_eq cr tf nb c hcr hp
/-- Witness for C5: each of the four early exits at a concrete input. -/
theorem C5_preconditions_in_order_witness :
    (Patcher.apply { hasProblem := true } false .absent =
      ({ success := false, message := "未找到目标文件",
         errors := [⟨.FILE_NOT_FOUND, "未找到目标文件"⟩] }, .absent)) ∧
    (Patcher.apply { hasProblem := false, targetFile := some "t" } false .absent =
      ({ success := false, message := "已经修复过了，无需重复修复",
         errors := [⟨.ALREADY_FIXED, "已经修复过了"⟩] }, .absent)) ∧
    (Patcher.apply { hasProblem := true, targetFile := some "t" } false .absent =
      ({ success := false, message := "目标文件不存在: " ++ "t",
         errors := [⟨.FILE_NOT_FOUND, "目标文件不存在: " ++ "t"⟩] }, .absent)) ∧
    (Patcher.apply { hasProblem := true, targetFile := some "t" } false
        (.unreadable []) =
      ({ success := false, message := "无法读取文件",
         errors := [⟨.PERMISSION_DENIED, "无法读取文件"⟩] }, .unreadable [])) :=
  ⟨(C5_preconditions_in_order _ false .absent).1 rfl,
   (C5_preconditions_in_order _ false .absent).2.1 "t" rfl rfl,
   (C5_preconditions_in_order _ false .absent).2.2.1 "t" rfl rfl rfl,
   (C5_preconditions_in_order _ false (.unreadable [])).2.2.2 "t" [] rfl rfl rfl⟩

/-- C7: Both insertion steps are idempotent at the text level: a text that
already contains the helper symbol with its module reference is returned
unchanged by the import step; a text that already contains the logic marker
is returned unchanged by the logic step; hence both steps leave the output of
a previous successful application (which passes `verify`) byte-identical. -/
theorem C7_insertion_idempotent (content : Text) :
    (includes content "sendMediaFeishu".data = true →
     includes content "./media.js".data = true →
     Patcher.addImport content = .ok content) ∧
    (includes content "payload.mediaUrls?.length".data = true →
     Patcher.addMediaLogic content = .ok content) ∧
    (Patcher.verify content = true →
     Patcher.addImport content = .ok content ∧
     Patcher.addMediaLogic content = .ok content) := by
  refine ⟨fun h1 h2 => ?_, fun h => ?_, fun hv => ?_⟩
  · rw [Patcher.addImport, h1, h2]
    rfl
  · rw [Patcher.addMediaLogic, h]
    rfl
  · rw [Patcher.verify] at hv
    simp only [Bool.and_eq_true] at hv
    have ha := hv.1.1.1.1
    have hb := hv.1.1.1.2
    have hm := hv.1.1.2
    refine ⟨?_, ?_⟩
    · rw [Patcher.addImport, ha, hb]
      rfl
    · rw [Patcher.addMediaLogic, hm]
      rfl
set_option maxRecDepth 100000 in
/-- Witness for C7 at a concrete already-patched-looking text. -/
theorem C7_insertion_idempotent_witness :
    Patcher.addImport c7WitnessText = .ok c7WitnessText ∧
    Patcher.addMediaLogic c7WitnessText = .ok c7WitnessText ∧
    (Patcher.addImport c7WitnessText = .ok c7WitnessText ∧
     Patcher.addMediaLogic c7WitnessText = .ok c7WitnessText) :=
  ⟨(C7_insertion_idempotent c7WitnessText).1 (by decide) (by decide),
   (C7_insertion_idempotent c7WitnessText).2.1 (by decide),
   (C7_insertion_idempotent c7WitnessText).2.2 (by decide)⟩

/-- C8: Backup round-trip — for every existing file `p`, `create` succeeds
with a byte-exact copy, `restore` of that copy back over `p` succeeds, and the
file at `p` is byte-identical to its content at `create` time. -/
theorem C8_backup_roundtrip (backupDir nowIso : String) (fs : Fs) (p : String)
    (c : Text) (h : fs p = some c) :
    ∃ bp fs', BackupManager.create backupDir nowIso fs p = .ok (bp, fs') ∧
      fs' bp = some c ∧
      ∃ fs'', BackupManager.restore fs' bp p = .ok fs'' ∧ fs'' p = some c := by
  have hbp : BackupManager.create backupDir nowIso fs p =
      .ok (backupDir ++ "/" ++ BackupManager.backupFileName p nowIso,
        fs.write (backupDir ++ "/" ++ BackupManager.backupFileName p nowIso) c) := by
    rw [BackupManager.create, h]
  have hhit : (fs.write (backupDir ++ "/" ++ BackupManager.backupFileName p nowIso) c)
      (backupDir ++ "/" ++ BackupManager.backupFileName p nowIso) = some c := by
    simp [Fs.write]
  have hres : BackupManager.restore
      (fs.write (backupDir ++ "/" ++ BackupManager.backupFileName p nowIso) c)
      (backupDir ++ "/" ++ BackupManager.backupFileName p nowIso) p =
      .ok ((fs.write (backupDir ++ "/" ++
        BackupManager.backupFileName p nowIso) c).write p c) := by
    rw [BackupManager.restore, hhit]
  exact ⟨_, _, hbp, hhit, _, hres, by simp [Fs.write]⟩
/-- Witness for C8 on a one-file filesystem. -/
theorem C8_backup_roundtrip_witness :
    ∃ bp fs', BackupManager.create "/b" "2026-10-12T03:04:05.678Z"
        (fun q => if q = "/x/a.ts" then some "x".data else none) "/x/a.ts" =
        .ok (bp, fs') ∧
      fs' bp = some "x".data ∧
      ∃ fs'', BackupManager.restore fs' bp "/x/a.ts" = .ok fs'' ∧
        fs'' "/x/a.ts" = some "x".data :=
  C8_backup_roundtrip "/b" "2026-10-12T03:04:05.678Z" _ "/x/a.ts" "x".data (by simp)

/-- C9 (evaluation of the code at the failing input): `create` embeds the ISO
instant with `:` and `.` collapsed to `-`; `list`'s recovery turns every
hyphen into a colon and then finds no hyphen left to turn into a dot, so for
a name produced by `create` the recovered string has colons even as its date
separators and is not the instant `create` embedded. -/
theorem C9_list_timestamp_garbled :
    BackupManager.backupFileName "/install/extensions/feishu/src/reply-dispatcher.ts"
        "2026-10-12T03:04:05.678Z" =
      "reply-dispatcher.ts.backup-2026-10-12T03-04-05-678Z" ∧
    BackupManager.timestampCapture
        "reply-dispatcher.ts.backup-2026-10-12T03-04-05-678Z" =
      some "2026-10-12T03-04-05-678Z" ∧
    BackupManager.recoverTimestamp "2026-10-12T03-04-05-678Z" =
      "2026:10:12T03:04:05:678Z" ∧
    BackupManager.recoverTimestamp "2026-10-12T03-04-05-678Z" ≠
      "2026-10-12T03:04:05.678Z" := by
  refine ⟨by decide, by decide, by decide, by decide⟩

set_option maxRecDepth 100000 in
/-- C4 (evaluation of the code at the failing input): on a text with
no import statement at all and no anchor, `addImport` does not fail — JS
`indexOf('\n', -1)` clamps the start to `0`, so the import line is inserted
after the first newline of the file. -/
theorem C4_no_import_still_inserts :
    includes "hello\nworld".data "import ".data = false ∧
    testPieces importAnchor "hello\nworld".data = false ∧
    Patcher.addImport "hello\nworld".data =
      .ok ("hello\n".data ++ MEDIA_IMPORT ++ '\n' :: "world".data) := by
  refine ⟨by decide, by decide, by rfl⟩

/-- A report with a problem, as `Patcher.apply` receives after detection. -/
def problemReport : CheckResult :=
  { hasProblem := true, targetFile := some "reply-dispatcher.ts" }

/-- A text whose `verify`-substrings are present without a real import, so
`apply` succeeds while the detector's import regex does not match. -/
def c1Text : Text :=
  "const a = \"sendMediaFeishu ./media.js\";\nimport \x7bx\x7d from \"y\";\ndeliver: async (payload: ReplyPayload) => \x7b body \x7d\n".data

/-- C1 (amended): `success = true` implies the written text passes the
patcher's own four-substring self-verification (`Patcher.verify`), not the
detector's three regexes. -/
theorem C1_success_implies_selfverify (cr : CheckResult) (nb : Bool)
    (fs : FileAccess) (h : (Patcher.apply cr nb fs).1.success = true) :
    ∃ c', (Patcher.apply cr nb fs).2 = .readable c' ∧ Patcher.verify c' = true :=
  apply_success_verify h

set_option maxRecDepth 1000000 in
/-- Witness for the amended C1 at a concrete successful apply. -/
theorem C1_success_implies_selfverify_witness :
    ∃ c', (Patcher.apply problemReport false (.readable c1Text)).2 =
        .readable c' ∧ Patcher.verify c' = true :=
  C1_success_implies_selfverify problemReport false (.readable c1Text) (by rfl)

set_option maxRecDepth 1000000 in
/-- Counterexample to C1 as stated: `apply` succeeds on `c1Text`, yet
re-running detection on the written text still reports a problem (the
detector's import regex finds no real media import). -/
theorem C1_counterexample :
    (Patcher.apply problemReport false (.readable c1Text)).1.success = true ∧
    (ProblemDetector.check "reply-dispatcher.ts"
        ((Patcher.apply problemReport false (.readable c1Text)).2.text)).hasProblem
      = true :=
  ⟨by rfl, by rfl⟩

/-- A text that carries the four `verify` substrings but no deliver anchor:
`apply` succeeds on it even though the logic-insertion anchor is absent. -/
def c2Text : Text :=
  "const a = \"sendMediaFeishu ./media.js\";\n// payload.mediaUrls?.length await sendMediaFeishu openclaw-feishu-media-fixer\n".data

set_option maxRecDepth 1000000 in
/-- Counterexample to C2 as stated: the deliver anchor does not match
`c2Text`, yet `apply` returns `success = true` (both insertion steps skip and
`verify` passes on the untouched text). -/
theorem C2_counterexample :
    testPieces deliverAnchor c2Text = false ∧
    (Patcher.apply problemReport false (.readable c2Text)).1.success = true :=
  ⟨by rfl, by rfl⟩

/-- C2 (amended): for every input text in which the deliver anchor does not
match and which does not already contain the logic marker, `apply` fails with
a `PATCH_FAILED`-tagged outcome and the target file is byte-unchanged — the
write happens only after self-verification, never before. -/
theorem C2_amended_no_anchor_fails (cr : CheckResult) (tf : String)
    (content : Text) (nb : Bool)
    (h1 : cr.targetFile = some tf) (h2 : cr.hasProblem = true)
    (h3 : testPieces deliverAnchor content = false)
    (h4 : includes content "payload.mediaUrls?.length".data = false) :
    (Patcher.apply cr nb (.readable content)).1.success = false ∧
    (Patcher.apply cr nb (.readable content)).1.errors.map (fun e => e.code) =
      [FixerError.PATCH_FAILED] ∧
    (Patcher.apply cr nb (.readable content)).2 = .readable content := by
  rcases hai : Patcher.addImport content with e | c1
  · rw [apply_importError_eq cr tf nb content e h1 h2 hai]
    simp [Patcher.applyFail]
  · have hmarker : includes c1 "payload.mediaUrls?.length".data = false := by
      rcases addImport_shape hai with rfl | ⟨A, C, q, hAC, hlast, hqc, hc1⟩
      · exact h4
      · rw [includes_eq_false_iff]
        have hni : ¬ "payload.mediaUrls?.length".data <:+: A ++ C := by
          rw [← hAC]
          exact includes_eq_false_iff.mp h4
        rcases hc1 with rfl | rfl
        · exact marker_not_infix_insert (Or.inl rfl) hni
        · exact marker_not_infix_insert (Or.inr rfl) hni
    have hanchor : testPieces deliverAnchor c1 = false := by
      rcases addImport_shape hai with rfl | ⟨A, C, q, hAC, hlast, hqc, hc1⟩
      · exact h3
      · rw [testPieces_eq_false_iff]
        have hno : ¬ Occurs deliverAnchor (A ++ C) := by
          rw [← hAC]
          exact testPieces_eq_false_iff.mp h3
        rcases hc1 with rfl | rfl
        · exact deliver_not_occurs_insert (Or.inl rfl) hno
        · exact deliver_not_occurs_insert (Or.inr rfl) hno
    have haml : Patcher.addMediaLogic c1 =
        .error ⟨.PATCH_FAILED, "无法找到 deliver 函数定义"⟩ := by
      rw [Patcher.addMediaLogic, hmarker, hanchor]
      rfl
    rw [apply_logicError_eq cr tf nb content c1 _ h1 h2 hai haml]
    simp [Patcher.applyFail]
/-- Witness for the amended C2 at a concrete input without the anchor. -/
theorem C2_amended_no_anchor_fails_witness :
    (Patcher.apply { hasProblem := true, targetFile := some "t" } false
        (.readable "x\n".data)).1.success = false ∧
    (Patcher.apply { hasProblem := true, targetFile := some "t" } false
        (.readable "x\n".data)).1.errors.map (fun e => e.code) =
      [FixerError.PATCH_FAILED] ∧
    (Patcher.apply { hasProblem := true, targetFile := some "t" } false
        (.readable "x\n".data)).2 = .readable "x\n".data :=
  C2_amended_no_anchor_fails _ "t" _ false rfl rfl (by decide) (by decide)

/-- C10: a hand-edited partial patch — the logic marker present but neither
an `await sendMediaFeishu` call nor the attribution marker — always makes
`apply` fail with a `PATCH_FAILED` outcome (the logic step skips, and
self-verification rejects the text before any write), leaving the target
byte-unchanged. -/
theorem C10_partial_patch_always_fails (cr : CheckResult) (tf : String)
    (content : Text) (nb : Bool)
    (h1 : cr.targetFile = some tf) (h2 : cr.hasProblem = true)
    (hm : includes content "payload.mediaUrls?.length".data = true)
    (hc : includes content "await sendMediaFeishu".data = false)
    (ha : includes content "openclaw-feishu-media-fixer".data = false) :
    (Patcher.apply cr nb (.readable content)).1.success = false ∧
    (Patcher.apply cr nb (.readable content)).1.errors.map (fun e => e.code) =
      [FixerError.PATCH_FAILED] ∧
    (Patcher.apply cr nb (.readable content)).2 = .readable content := by
  rcases hai : Patcher.addImport content with e | c1
  · rw [apply_importError_eq cr tf nb content e h1 h2 hai]
    simp [Patcher.applyFail]
  · have hm1 : includes c1 "payload.mediaUrls?.length".data = true := by
      rcases addImport_shape hai with rfl | ⟨A, C, q, hAC, hlast, hqc, hc1⟩
      · exact hm
      · rw [includes_eq_true_iff]
        have hinf : "payload.mediaUrls?.length".data <:+: A ++ C := by
          rw [← hAC]
          exact includes_eq_true_iff.mp hm
        have hsurv := marker_infix_insert hinf hlast hqc
        rcases hc1 with rfl | rfl
        · exact hsurv _
        · exact hsurv _
    have hcall1 : includes c1 "await sendMediaFeishu".data = false := by
      rcases addImport_shape hai with rfl | ⟨A, C, q, hAC, hlast, hqc, hc1⟩
      · exact hc
      · rw [includes_eq_false_iff]
        have hni : ¬ "await sendMediaFeishu".data <:+: A ++ C := by
          rw [← hAC]
          exact includes_eq_false_iff.mp hc
        rcases hc1 with rfl | rfl
        · exact awaitCall_not_infix_insert (Or.inl rfl) hni
        · exact awaitCall_not_infix_insert (Or.inr rfl) hni
    have haml : Patcher.addMediaLogic c1 = .ok c1 := by
      rw [Patcher.addMediaLogic, hm1]
      rfl
    have hv : Patcher.verify c1 = false := by
      rw [Patcher.verify, hcall1]
      simp
    rw [apply_step3_eq cr tf nb content c1 c1 h1 h2 hai haml, hv]
    simp [Patcher.applyFail]
/-- Witness for C10 at a concrete hand-edited partial patch. -/
theorem C10_partial_patch_always_fails_witness :
    (Patcher.apply { hasProblem := true, targetFile := some "t" } false
        (.readable "payload.mediaUrls?.length".data)).1.success = false ∧
    (Patcher.apply { hasProblem := true, targetFile := some "t" } false
        (.readable "payload.mediaUrls?.length".data)).1.errors.map
      (fun e => e.code) = [FixerError.PATCH_FAILED] ∧
    (Patcher.apply { hasProblem := true, targetFile := some "t" } false
        (.readable "payload.mediaUrls?.length".data)).2 =
      .readable "payload.mediaUrls?.length".data :=
  C10_partial_patch_always_fails _ "t" _ false rfl rfl (by decide) (by decide)
    (by decide)
